import Mathlib

/-!
Shallow embedding of `generate_log.py` (riichi-forge): a synthetic
four-player riichi match-log generator.  Python lists of tiles become
`List Nat`; the mutable tile pool becomes explicit state passing; the
pseudo-random `random.choice(available)` becomes an oracle
`f : Nat → Nat` giving, for the k-th pool draw, an index into the
`available` list (taken modulo its length); code that can raise
(`ValueError("No tiles left in pool!")`) returns `Except String`.
Heterogeneous Python lists (ints mixed with call/riichi strings) are
modelled with the `LogEntry` sum type.
-/

namespace RiichiForge

/-- Heterogeneous entry of a draws/discards list: a tile integer or a
string (call code or riichi-tagged discard), mirroring Python's mixed
`int`/`str` lists. -/
inductive LogEntry where
  | num (n : Nat)
  | str (s : String)
deriving DecidableEq, Repr

/-- Relative position of a seat with respect to the hero, as used by the
Python dict keys "HERO"/"SHIMO"/"TOIMEN"/"KAMI". -/
inductive Pos where
  | hero
  | shimo
  | toimen
  | kami
deriving DecidableEq, Repr

/-- The per-relative-position draw lists (the Python `draws` dict of
`generate_random_draws`, and the global `DRAWS` configuration). -/
structure Draws where
  hero : List Nat
  shimo : List Nat
  toimen : List Nat
  kami : List Nat
deriving DecidableEq, Repr

/-- Field lookup of a `Draws` by relative position. -/
def Draws.get (d : Draws) : Pos → List Nat
  | .hero => d.hero
  | .shimo => d.shimo
  | .toimen => d.toimen
  | .kami => d.kami

/-- Append one tile to the list of the given relative position
(`draws[pos].append(tile)`). -/
def Draws.app (d : Draws) (p : Pos) (t : Nat) : Draws :=
  match p with
  | .hero => ⟨d.hero ++ [t], d.shimo, d.toimen, d.kami⟩
  | .shimo => ⟨d.hero, d.shimo ++ [t], d.toimen, d.kami⟩
  | .toimen => ⟨d.hero, d.shimo, d.toimen ++ [t], d.kami⟩
  | .kami => ⟨d.hero, d.shimo, d.toimen, d.kami ++ [t]⟩

/-- The per-relative-position personal turn counters (the Python
`player_turns` dict). -/
structure Turns where
  hero : Nat
  shimo : Nat
  toimen : Nat
  kami : Nat
deriving DecidableEq, Repr

/-- Field lookup of `Turns` by relative position. -/
def Turns.get (t : Turns) : Pos → Nat
  | .hero => t.hero
  | .shimo => t.shimo
  | .toimen => t.toimen
  | .kami => t.kami

/-- Increment the turn counter of the given relative position
(`player_turns[pos] += 1`). -/
def Turns.bump (t : Turns) (p : Pos) : Turns :=
  match p with
  | .hero => ⟨t.hero + 1, t.shimo, t.toimen, t.kami⟩
  | .shimo => ⟨t.hero, t.shimo + 1, t.toimen, t.kami⟩
  | .toimen => ⟨t.hero, t.shimo, t.toimen + 1, t.kami⟩
  | .kami => ⟨t.hero, t.shimo, t.toimen, t.kami + 1⟩

/-- The fixed absolute seat order `seats = ["EAST","SOUTH","WEST","NORTH"]`. -/
def seatsList : List String := ["EAST", "SOUTH", "WEST", "NORTH"]

/-- Configuration read by the generator from the Python module's globals:
hero seat, `HERO_LAST_DISCARD_TURN` (`n`), `HERO_HAND`, `HERO_LAST_DRAW`,
`DORA_INDICATOR` and the `RULE["aka"]` flag. -/
structure GenCfg where
  heroSeat : String
  n : Nat
  heroHand : List Nat
  heroLastDraw : Nat
  doraIndicator : List Nat
  aka : Nat
deriving DecidableEq, Repr

/-- `seats.index(HERO_SEAT)` (4 when the seat string is invalid, where
Python would raise). -/
def GenCfg.heroIdx (cfg : GenCfg) : Nat := seatsList.indexOf cfg.heroSeat

/-- The Python `abs_to_pos` dict: it maps `hero_idx ↦ HERO`,
`(hero_idx+1)%4 ↦ SHIMO`, `(hero_idx+2)%4 ↦ TOIMEN`, `(hero_idx+3)%4 ↦ KAMI`;
for `heroIdx < 4` this is exactly seat-index difference mod 4. -/
def abs_to_pos (heroIdx seatIdx : Nat) : Pos :=
  match (seatIdx + 4 - heroIdx) % 4 with
  | 0 => .hero
  | 1 => .shimo
  | 2 => .toimen
  | _ => .kami

/-- The initial tile pool: 4 copies of each of 11-19, 21-29, 31-39 then
4 copies of each honor 41-47, in that construction order. -/
def basePool : List Nat :=
  ([10, 20, 30].flatMap fun suit =>
    (List.range' 1 9).flatMap fun num => List.replicate 4 (suit + num))
  ++ ((List.range' 41 7).flatMap fun honor => List.replicate 4 honor)

/-- Red-five handling: when `RULE["aka"] == 1`, one copy each of 15, 25, 35
is removed and the red five 51/52/53 appended at the end. -/
def applyAka (aka : Nat) (pool : List Nat) : List Nat :=
  if aka = 1 then
    [(15, 51), (25, 52), (35, 53)].foldl
      (fun p nr => if nr.1 ∈ p then (p.erase nr.1) ++ [nr.2] else p) pool
  else pool

/-- The fixed-tile removal loops: for each listed tile, remove one
occurrence from the pool if present (silent no-op otherwise). -/
def removeFixed (pool : List Nat) (tiles : List Nat) : List Nat :=
  tiles.foldl (fun p t => if t ∈ p then p.erase t else p) pool

/-- The list of fixed committed tiles that are deducted from the pool
before any drawing: hero hand, then hero last draw, then dora indicators
(the removal order of the source). -/
def fixedTiles (cfg : GenCfg) : List Nat :=
  cfg.heroHand ++ [cfg.heroLastDraw] ++ cfg.doraIndicator

/-- The prepared pool at the start of the draw loop. -/
def initPool (cfg : GenCfg) : List Nat :=
  removeFixed (applyAka cfg.aka basePool) (fixedTiles cfg)

/-- `terminals = {11, 19, 21, 29, 31, 39}`. -/
def terminals : Finset Nat := {11, 19, 21, 29, 31, 39}

/-- `honors = set(range(41, 48))`. -/
def honors : Finset Nat := {41, 42, 43, 44, 45, 46, 47}

/-- `twos_eights = {12, 18, 22, 28, 32, 38}`. -/
def twos_eights : Finset Nat := {12, 18, 22, 28, 32, 38}

/-- `threes_sevens = {13, 17, 23, 27, 33, 37}`. -/
def threes_sevens : Finset Nat := {13, 17, 23, 27, 33, 37}

/-- `middle = {14, 15, 16, 24, 25, 26, 34, 35, 36, 51, 52, 53}`
(includes the red fives). -/
def middle : Finset Nat := {14, 15, 16, 24, 25, 26, 34, 35, 36, 51, 52, 53}

/-- `get_allowed_tiles(turn)`: the set of tile classes allowed on the given
personal turn (1-indexed), built cumulatively. -/
def get_allowed_tiles (turn : Nat) : Finset Nat :=
  let a := terminals ∪ honors
  let a := if 4 ≤ turn then a ∪ twos_eights else a
  let a := if 6 ≤ turn then a ∪ threes_sevens else a
  if 7 ≤ turn then a ∪ middle else a

/-- `draw_random_tile(pool, turn)`: filter the pool by the turn's allowed
classes, fall back to the whole pool when nothing matches, raise
`ValueError("No tiles left in pool!")` when even the fallback is empty,
otherwise remove and return the chosen tile (`random.choice` modelled by
the index `choice % available.length`). -/
def draw_random_tile (pool : List Nat) (turn : Nat) (choice : Nat) :
    Except String (Nat × List Nat) :=
  let allowed := get_allowed_tiles turn
  let available := pool.filter fun t => decide (t ∈ allowed)
  let available := if available.isEmpty then pool else available
  if available.isEmpty then
    .error "No tiles left in pool!"
  else
    let tile := available.getD (choice % available.length) 0
    .ok (tile, pool.erase tile)

/-- Mutable generator state of the draw loop: the pool, the draws
accumulated so far, the personal turn counters, and the count `k` of pool
draws performed so far (the randomness-oracle cursor). -/
structure GenState where
  pool : List Nat
  draws : Draws
  turns : Turns
  k : Nat
deriving DecidableEq, Repr

/-- Initial generator state: prepared pool, empty draw lists, zero turn
counters. -/
def initState (cfg : GenCfg) : GenState :=
  ⟨initPool cfg, ⟨[], [], [], []⟩, ⟨0, 0, 0, 0⟩, 0⟩

/-- One seat's draw opportunity in the round loop: bump the seat's turn
counter; when the seat is the hero and the counter equals `n`, append the
fixed `HERO_LAST_DRAW`; otherwise draw from the pool. -/
def stepSeat (cfg : GenCfg) (f : Nat → Nat) (st : GenState) (j : Nat) :
    Except String GenState :=
  let p := abs_to_pos cfg.heroIdx j
  let turns' := st.turns.bump p
  let turn := turns'.get p
  if p = Pos.hero ∧ turn = cfg.n then
    .ok ⟨st.pool, st.draws.app p cfg.heroLastDraw, turns', st.k⟩
  else
    match draw_random_tile st.pool turn (f st.k) with
    | .error e => .error e
    | .ok (tile, pool') => .ok ⟨pool', st.draws.app p tile, turns', st.k + 1⟩

/-- One full round of the loop: `for seat_idx in range(4)`. -/
def stepRound (cfg : GenCfg) (f : Nat → Nat) (st : GenState) :
    Except String GenState :=
  match stepSeat cfg f st 0 with
  | .error e => .error e
  | .ok st1 =>
    match stepSeat cfg f st1 1 with
    | .error e => .error e
    | .ok st2 =>
      match stepSeat cfg f st2 2 with
      | .error e => .error e
      | .ok st3 => stepSeat cfg f st3 3

/-- `for round_num in range(r)`: iterate `stepRound` r times. -/
def runRounds (cfg : GenCfg) (f : Nat → Nat) : Nat → GenState → Except String GenState
  | 0, st => .ok st
  | r + 1, st =>
    match stepRound cfg f st with
    | .error e => .error e
    | .ok st' => runRounds cfg f r st'

/-- `generate_random_draws()`: run `n` full rounds from the prepared pool,
then append the forced winning self-draw tile 45 to SHIMO's list. -/
def generate_random_draws (cfg : GenCfg) (f : Nat → Nat) :
    Except String Draws :=
  match runRounds cfg f cfg.n (initState cfg) with
  | .error e => .error e
  | .ok st =>
    .ok ⟨st.draws.hero, st.draws.shimo ++ [45], st.draws.toimen, st.draws.kami⟩

/-- `get_draws()`: return the configured `DRAWS` unless all four lists are
empty, in which case random generation is invoked. -/
def get_draws (d : Draws) (cfg : GenCfg) (f : Nat → Nat) :
    Except String Draws :=
  if d.hero.isEmpty ∧ d.shimo.isEmpty ∧ d.toimen.isEmpty ∧ d.kami.isEmpty then
    generate_random_draws cfg f
  else
    .ok d

/-- Embeds the Python call-code encoder (`generate_call_` + the tenhou
marker word): builds the position-sensitive marker string for CHI, PON,
KAN and ANKAN, with the unrecognized-action fallthrough returning the
bare tile string. -/
def generate_call_str (action : String) (tile : Nat) (source : String)
    (chiTiles : List Nat) : String :=
  let t := toString tile
  if action = "CHI" then
    let allTiles := (chiTiles ++ [tile]).mergeSort fun a b => decide (a ≤ b)
    allTiles.foldl
      (fun r tt => if tt = tile then r ++ "c" ++ toString tt else r ++ toString tt) ""
  else if action = "PON" then
    if source = "KAMI" then "p" ++ t ++ t ++ t
    else if source = "TOIMEN" then t ++ "p" ++ t ++ t
    else t ++ t ++ "p" ++ t
  else if action = "KAN" then
    if source = "KAMI" then "m" ++ t ++ t ++ t ++ t
    else if source = "TOIMEN" then t ++ "m" ++ t ++ t ++ t
    else t ++ t ++ t ++ "m" ++ t
  else if action = "ANKAN" then
    t ++ t ++ t ++ "a" ++ t
  else t

/-- `calculate_score_changes()`, with the global `HERO_SEAT` made an
explicit parameter.  The winner is always SHIMO, the seat after the hero;
EAST (index 0) is the dealer. -/
def calculate_score_changes (heroSeat : String) : List Int :=
  let hero_idx := seatsList.indexOf heroSeat
  let shimo_idx := (hero_idx + 1) % 4
  let dealer_idx := 0
  if shimo_idx = dealer_idx then
    [144000, -48000, -48000, -48000]
  else
    let changes : List Int := [0, 0, 0, 0]
    let changes := changes.set shimo_idx 96000
    (List.range 4).foldl
      (fun cs i =>
        if i = shimo_idx then cs
        else if i = dealer_idx then cs.set i (-48000)
        else cs.set i (-24000))
      changes

/-- `build_other_player_discards(rel_pos, num_discards)`, with the global
`OTHER_PLAYERS_ACTIONS` dict made an explicit association list
(position string ↦ optional RIICHI_TURN value; `none` models a sub-dict
missing the RIICHI_TURN key, whose `.get` default is 0). -/
def build_other_player_discards (actionsCfg : List (String × Option Int))
    (rel_pos : String) (num_discards : Nat) : List LogEntry :=
  match actionsCfg.lookup rel_pos with
  | none => List.replicate num_discards (.num 60)
  | some inner =>
    let riichi_turn := inner.getD 0
    if riichi_turn ≤ 0 ∨ (num_discards : Int) < riichi_turn then
      List.replicate num_discards (.num 60)
    else
      (List.range' 1 num_discards).map fun (turn : Nat) =>
        if (turn : Int) = riichi_turn then LogEntry.str "r60" else .num 60

/-- The hero branch of `build_player_data` (lines 384-414): from the hero's
generated draw list and the configured final action, produce the hero's
(draws, discards) pair.  `callStr` is the pre-computed call code string;
`Python draws[-1] = call_str` becomes `List.set (length - 1)`. -/
def hero_build (action : String) (heroDraws : List Nat)
    (lastDiscardTurn : Nat) (lastDiscard : Nat) (lastDraw : Nat)
    (callStr : String) : List LogEntry × List LogEntry :=
  let draws : List LogEntry := heroDraws.map .num
  let filler : List LogEntry := List.replicate (lastDiscardTurn - 1) (.num 60)
  if action = "DISCARD" then
    (draws, filler ++ [.num lastDiscard])
  else if action = "RIICHI" then
    (draws, filler ++ [.str ("r" ++ toString lastDiscard)])
  else if action = "CHI" then
    (draws.set (draws.length - 1) (.str callStr), filler ++ [.num lastDiscard])
  else if action = "PON" then
    (draws.set (draws.length - 1) (.str callStr), filler ++ [.num lastDiscard])
  else if action ∈ ["KAN", "ANKAN"] then
    (draws.set (draws.length - 1) (.str callStr) ++ [.num lastDraw],
      filler ++ [.num lastDiscard])
  else
    (draws, filler ++ [.num lastDiscard])

/-- A fixed randomness oracle that always picks the first available tile;
used to exhibit concrete runs of the generator. -/
def idxZero : Nat → Nat := fun _ => 0

/-- A small demonstration configuration: hero at EAST with final turn 1,
empty fixed-tile lists apart from the last draw. -/
def cfgDemo : GenCfg := ⟨"EAST", 1, [], 19, [], 0⟩

/-- The configuration shipped in the repository's globals: hero at NORTH,
final turn 8, the 13-tile hero hand, last draw 32, dora indicator 21,
red fives enabled. -/
def cfgRepo : GenCfg :=
  ⟨"NORTH", 8, [13, 14, 17, 18, 19, 25, 26, 27, 28, 28, 31, 31, 33], 32, [21], 1⟩

/-- A NORTH-hero configuration with final turn 2, used to exhibit a
complete small generator run. -/
def cfgNorth2 : GenCfg := ⟨"NORTH", 2, [], 19, [], 0⟩

/-- The generator state after the single round of `cfgDemo` under the
first-available oracle: three 11s drawn, hero's fixed draw spliced in. -/
def stDemo : GenState :=
  ⟨(((initPool cfgDemo).erase 11).erase 11).erase 11,
    ⟨[19], [11], [11], [11]⟩, ⟨1, 1, 1, 1⟩, 3⟩

/-- The repository's `OTHER_PLAYERS_ACTIONS` dict: SHIMO declares riichi
on turn 5, TOIMEN and KAMI never. -/
def actionsRepo : List (String × Option Int) :=
  [("SHIMO", some 5), ("TOIMEN", some 0), ("KAMI", some 0)]

/-! ## Helper lemmas -/

/-- A string's `length` is the length of its character list. -/
theorem str_len : ∀ s : String, s.length = s.data.length := fun ⟨_⟩ => rfl

/-- `Draws.app` appends to exactly the named position's list. -/
theorem draws_app_get (d : Draws) (p q : Pos) (t : Nat) :
    (d.app p t).get q = if q = p then d.get q ++ [t] else d.get q := by
  cases p <;> cases q <;> simp [Draws.app, Draws.get]

/-- `Turns.bump` increments exactly the named position's counter. -/
theorem turns_bump_get (tr : Turns) (p q : Pos) :
    (tr.bump p).get q = if q = p then tr.get q + 1 else tr.get q := by
  cases p <;> cases q <;> simp [Turns.bump, Turns.get]

/-! ## Claims -/

/-- C3: the allowed-tile-class table is cumulative by personal turn number:
turns 1-3 give exactly terminals plus honors; turns 4-5 additionally ranks
2 and 8; turn 6 additionally ranks 3 and 7; turns 7 and later additionally
the middle ranks 4, 5, 6 with the red fives. -/
theorem allowed_tiles_table (t : Nat) (h : 1 ≤ t) :
    get_allowed_tiles t =
      if t ≤ 3 then terminals ∪ honors
      else if t ≤ 5 then terminals ∪ honors ∪ twos_eights
      else if t = 6 then terminals ∪ honors ∪ twos_eights ∪ threes_sevens
      else terminals ∪ honors ∪ twos_eights ∪ threes_sevens ∪ middle := by
  simp only [get_allowed_tiles]
  split_ifs <;> first | rfl | omega

/-- Witness for C3: at turn 7 every class is allowed. -/
theorem allowed_tiles_table_w :
    get_allowed_tiles 7 =
      terminals ∪ honors ∪ twos_eights ∪ threes_sevens ∪ middle := by
  have h := allowed_tiles_table 7 (by decide)
  simpa using h

/-- C9: the score-change rule.  The winner is the seat after the hero;
when that seat is the dealer (EAST) every loser pays the same amount and
the winner receives three times that payment; otherwise the dealer pays
exactly double each non-dealer loser; in every case the four changes sum
to zero. -/
theorem score_changes_rule (heroSeat : String) (h : heroSeat ∈ seatsList) :
    (calculate_score_changes heroSeat).sum = 0 ∧
    (calculate_score_changes heroSeat).length = 4 ∧
    ((seatsList.indexOf heroSeat + 1) % 4 = 0 →
      ∀ i, i < 4 → i ≠ (seatsList.indexOf heroSeat + 1) % 4 →
        (calculate_score_changes heroSeat).getD ((seatsList.indexOf heroSeat + 1) % 4) 0
          = -(3 * (calculate_score_changes heroSeat).getD i 0)) ∧
    ((seatsList.indexOf heroSeat + 1) % 4 ≠ 0 →
      ∀ i, i < 4 → i ≠ (seatsList.indexOf heroSeat + 1) % 4 → i ≠ 0 →
        (calculate_score_changes heroSeat).getD 0 0
          = 2 * (calculate_score_changes heroSeat).getD i 0) := by
  fin_cases h <;> refine ⟨by decide, by decide, ?_, ?_⟩ <;> decide

/-- Witness for C9: with the hero at NORTH the winner is the EAST dealer
and the changes sum to zero. -/
theorem score_changes_rule_w : (calculate_score_changes "NORTH").sum = 0 :=
  (score_changes_rule "NORTH" (by decide)).1

/-- C10: when at least one configured draw list is non-empty, `get_draws`
returns the configured mapping unchanged; random generation is invoked
exactly when all four lists are empty. -/
theorem get_draws_passthrough (d : Draws) (cfg : GenCfg) (f : Nat → Nat) :
    (¬(d.hero = [] ∧ d.shimo = [] ∧ d.toimen = [] ∧ d.kami = []) →
      get_draws d cfg f = .ok d) ∧
    (d.hero = [] ∧ d.shimo = [] ∧ d.toimen = [] ∧ d.kami = [] →
      get_draws d cfg f = generate_random_draws cfg f) := by
  refine ⟨fun h => ?_, fun h => ?_⟩
  · rw [get_draws, if_neg]
    simpa [List.isEmpty_iff] using h
  · rw [get_draws, if_pos]
    simpa [List.isEmpty_iff] using h

/-- Witness for C10: a configuration whose SHIMO list is non-empty is
returned unchanged. -/
theorem get_draws_passthrough_w :
    get_draws ⟨[], [45], [], []⟩ cfgDemo idxZero = .ok ⟨[], [45], [], []⟩ :=
  (get_draws_passthrough ⟨[], [45], [], []⟩ cfgDemo idxZero).1 (by simp)

/-- C8: for a non-hero position configured with riichi turn `T` and `m`
total discards: when `1 ≤ T ≤ m` the list has length `m`, its `T`-th entry
is the riichi-tagged filler and every other entry is the plain filler;
when `T ≤ 0` or `T > m` every entry is the plain filler. -/
theorem other_discards_riichi (cfgA : List (String × Option Int))
    (rel : String) (num : Nat) (T : Int)
    (hlk : cfgA.lookup rel = some (some T)) :
    ((1 ≤ T ∧ T ≤ (num : Int)) →
      (build_other_player_discards cfgA rel num).length = num ∧
      (build_other_player_discards cfgA rel num)[T.toNat - 1]?
        = some (.str "r60") ∧
      (∀ i, i < num → i ≠ T.toNat - 1 →
        (build_other_player_discards cfgA rel num)[i]? = some (.num 60))) ∧
    ((T ≤ 0 ∨ (num : Int) < T) →
      build_other_player_discards cfgA rel num
        = List.replicate num (.num 60)) := by
  simp only [build_other_player_discards, hlk, Option.getD_some]
  constructor
  · rintro ⟨h1, h2⟩
    rw [if_neg (by omega)]
    refine ⟨by simp, ?_, ?_⟩
    · have hlt : T.toNat - 1 < num := by omega
      rw [List.getElem?_map, List.getElem?_range' 1 1 hlt]
      have he : (1 : Int) + ((T.toNat - 1 : Nat) : Int) = T := by omega
      simp [he]
    · intro i hi hne
      rw [List.getElem?_map, List.getElem?_range' 1 1 hi]
      have he : ¬((1 : Int) + (i : Int) = T) := by omega
      simp [he]
  · intro h
    rw [if_pos (by omega)]

/-- Witness for C8: the repository's SHIMO configuration (riichi turn 5 of
8 discards) tags exactly index 4. -/
theorem other_discards_riichi_w :
    (build_other_player_discards actionsRepo "SHIMO" 8)[4]?
      = some (.str "r60") :=
  ((other_discards_riichi actionsRepo "SHIMO" 8 5 (by decide)).1
    (by decide)).2.1

/-- C7: for every configured hero final action the hero's discard list has
length equal to the final-turn number, all entries the filler except the
last, which is the fixed discard tile, riichi-tagged exactly for RIICHI;
CHI/PON overwrite the final draw entry with the call code keeping the
draw count; KAN/ANKAN overwrite it and append exactly one extra draw (the
replacement tile). -/
theorem hero_build_spec (action : String) (heroDraws : List Nat)
    (t d w : Nat) (c : String)
    (hact : action ∈ ["DISCARD", "RIICHI", "CHI", "PON", "KAN", "ANKAN"])
    (ht : 1 ≤ t) (hd : 1 ≤ heroDraws.length) :
    (hero_build action heroDraws t d w c).2.length = t ∧
    (∀ i, i < t - 1 →
      (hero_build action heroDraws t d w c).2[i]? = some (.num 60)) ∧
    (hero_build action heroDraws t d w c).2[t - 1]?
      = some (if action = "RIICHI" then .str ("r" ++ toString d) else .num d) ∧
    ((action = "CHI" ∨ action = "PON") →
      (hero_build action heroDraws t d w c).1.length = heroDraws.length ∧
      (hero_build action heroDraws t d w c).1.getLast? = some (.str c)) ∧
    ((action = "KAN" ∨ action = "ANKAN") →
      (hero_build action heroDraws t d w c).1.length = heroDraws.length + 1 ∧
      (hero_build action heroDraws t d w c).1.getLast? = some (.num w) ∧
      (hero_build action heroDraws t d w c).1[heroDraws.length - 1]?
        = some (.str c)) ∧
    ((action = "DISCARD" ∨ action = "RIICHI") →
      (hero_build action heroDraws t d w c).1 = heroDraws.map .num) := by
  have hlen : (heroDraws.map LogEntry.num).length = heroDraws.length :=
    List.length_map ..
  have hset : ∀ e : LogEntry,
      ((heroDraws.map LogEntry.num).set (heroDraws.length - 1) e)[heroDraws.length - 1]?
        = some e := by
    intro e
    exact List.getElem?_set_self (by omega)
  have hsetlen : ∀ e : LogEntry,
      ((heroDraws.map LogEntry.num).set (heroDraws.length - 1) e).length
        = heroDraws.length := by
    intro e
    simp
  have hdisc_len :
      (List.replicate (t - 1) (LogEntry.num 60) ++ [LogEntry.num d]).length = t := by
    simp
    omega
  have hdisc_lenr :
      (List.replicate (t - 1) (LogEntry.num 60)
        ++ [LogEntry.str ("r" ++ toString d)]).length = t := by
    simp
    omega
  have hdisc_fill : ∀ (e : LogEntry) (i : Nat), i < t - 1 →
      (List.replicate (t - 1) (LogEntry.num 60) ++ [e])[i]? = some (.num 60) := by
    intro e i hi
    rw [List.getElem?_append]
    simp [hi]
  have hdisc_last : ∀ e : LogEntry,
      (List.replicate (t - 1) (LogEntry.num 60) ++ [e])[t - 1]? = some e := by
    intro e
    rw [List.getElem?_append_right (by simp)]
    simp
  fin_cases hact
  · refine ⟨by simp [hero_build]; omega, fun i hi => ?_, ?_, by simp [hero_build], ?_, ?_⟩
    · simpa [hero_build] using hdisc_fill _ i hi
    · simpa [hero_build] using hdisc_last (.num d)
    · rintro (h | h) <;> simp at h
    · intro h
      simp [hero_build]
  · refine ⟨by simp [hero_build]; omega, fun i hi => ?_, ?_, ?_, ?_, ?_⟩
    · simpa [hero_build] using hdisc_fill _ i hi
    · simpa [hero_build] using hdisc_last (.str ("r" ++ toString d))
    · rintro (h | h) <;> simp at h
    · rintro (h | h) <;> simp at h
    · intro h
      simp [hero_build]
  · refine ⟨by simp [hero_build]; omega, fun i hi => ?_, ?_, ?_, ?_, ?_⟩
    · simpa [hero_build] using hdisc_fill _ i hi
    · simpa [hero_build] using hdisc_last (.num d)
    · intro h
      refine ⟨by simpa [hero_build] using hsetlen (.str c), ?_⟩
      rw [List.getLast?_eq_getElem?]
      simpa [hero_build, hlen] using hset (.str c)
    · rintro (h | h) <;> simp at h
    · rintro (h | h) <;> simp at h
  · refine ⟨by simp [hero_build]; omega, fun i hi => ?_, ?_, ?_, ?_, ?_⟩
    · simpa [hero_build] using hdisc_fill _ i hi
    · simpa [hero_build] using hdisc_last (.num d)
    · intro h
      refine ⟨by simpa [hero_build] using hsetlen (.str c), ?_⟩
      rw [List.getLast?_eq_getElem?]
      simpa [hero_build, hlen] using hset (.str c)
    · rintro (h | h) <;> simp at h
    · rintro (h | h) <;> simp at h
  · refine ⟨by simp [hero_build]; omega, fun i hi => ?_, ?_, ?_, ?_, ?_⟩
    · simpa [hero_build] using hdisc_fill _ i hi
    · simpa [hero_build] using hdisc_last (.num d)
    · rintro (h | h) <;> simp at h
    · intro h
      refine ⟨by simpa [hero_build] using hsetlen (.str c), ?_, ?_⟩
      · simp [hero_build, List.getLast?_concat]
      · rw [show (hero_build "KAN" heroDraws t d w c).1
            = ((heroDraws.map LogEntry.num).set (heroDraws.length - 1) (.str c))
              ++ [.num w] from by simp [hero_build]]
        rw [List.getElem?_append, if_pos (by simp; omega)]
        exact hset (.str c)
    · rintro (h | h) <;> simp at h
  · refine ⟨by simp [hero_build]; omega, fun i hi => ?_, ?_, ?_, ?_, ?_⟩
    · simpa [hero_build] using hdisc_fill _ i hi
    · simpa [hero_build] using hdisc_last (.num d)
    · rintro (h | h) <;> simp at h
    · intro h
      refine ⟨by simpa [hero_build] using hsetlen (.str c), ?_, ?_⟩
      · simp [hero_build, List.getLast?_concat]
      · rw [show (hero_build "ANKAN" heroDraws t d w c).1
            = ((heroDraws.map LogEntry.num).set (heroDraws.length - 1) (.str c))
              ++ [.num w] from by simp [hero_build]]
        rw [List.getElem?_append, if_pos (by simp; omega)]
        exact hset (.str c)
    · rintro (h | h) <;> simp at h

/-- Witness for C7: the RIICHI action on a 2-draw, turn-2 configuration
ends the discard list with the riichi-tagged fixed discard. -/
theorem hero_build_spec_w :
    (hero_build "RIICHI" [11, 19] 2 31 32 "x").2[2 - 1]?
      = some (if ("RIICHI" : String) = "RIICHI"
          then LogEntry.str ("r" ++ toString 31) else .num 31) :=
  (hero_build_spec "RIICHI" [11, 19] 2 31 32 "x" (by decide) (by decide)
    (by decide)).2.2.1

/-- Any successful `draw_random_tile` returns a member of the pool and
shrinks the pool by exactly one (the returned remainder is the pool with
the first occurrence of the drawn tile erased). -/
theorem draw_ok {pool : List Nat} {turn choice t : Nat} {p' : List Nat}
    (h : draw_random_tile pool turn choice = .ok (t, p')) :
    t ∈ pool ∧ p' = pool.erase t ∧ p'.length + 1 = pool.length := by
  simp only [draw_random_tile] at h
  by_cases h0 :
      (if (pool.filter fun x => decide (x ∈ get_allowed_tiles turn)).isEmpty
        then pool
        else pool.filter fun x => decide (x ∈ get_allowed_tiles turn)).isEmpty
  · rw [if_pos h0] at h
    cases h
  · rw [if_neg h0] at h
    set av := if (pool.filter fun x => decide (x ∈ get_allowed_tiles turn)).isEmpty
      then pool
      else pool.filter fun x => decide (x ∈ get_allowed_tiles turn) with hav
    have havne : av ≠ [] := by
      intro hnil
      rw [hnil] at h0
      exact h0 rfl
    have hlt : choice % av.length < av.length :=
      Nat.mod_lt _ (List.length_pos.mpr havne)
    have htile : av.getD (choice % av.length) 0 ∈ av := by
      rw [List.getD_eq_getElem?_getD, List.getElem?_eq_getElem hlt]
      exact List.getElem_mem hlt
    have htp : t = av.getD (choice % av.length) 0 ∧ p' = pool.erase t := by
      cases h
      exact ⟨rfl, rfl⟩
    obtain ⟨ht, hp⟩ := htp
    have hsub : ∀ y, y ∈ av → y ∈ pool := by
      intro y hy
      rw [hav] at hy
      by_cases hfe : (pool.filter fun x => decide (x ∈ get_allowed_tiles turn)).isEmpty
      · rw [if_pos hfe] at hy
        exact hy
      · rw [if_neg hfe] at hy
        exact (List.mem_filter.mp hy).1
    have hmem : t ∈ pool := by
      rw [ht]
      exact hsub _ htile
    refine ⟨hmem, hp, ?_⟩
    rw [hp, List.length_erase_of_mem hmem]
    have := List.length_pos_of_mem hmem
    omega

/-- C4: the filtered draw returns an allowed tile when one is available,
falls back to the whole remaining pool when the pool is non-empty but
holds no allowed tile, and fails with the no-tiles-remaining error when
the pool is exhausted. -/
theorem draw_filter_behavior (pool : List Nat) (turn choice : Nat) :
    ((∃ x ∈ pool, x ∈ get_allowed_tiles turn) →
      ∃ t, draw_random_tile pool turn choice = .ok (t, pool.erase t) ∧
        t ∈ pool ∧ t ∈ get_allowed_tiles turn) ∧
    ((pool ≠ [] ∧ ∀ x ∈ pool, x ∉ get_allowed_tiles turn) →
      ∃ t, draw_random_tile pool turn choice = .ok (t, pool.erase t) ∧
        t ∈ pool) ∧
    (pool = [] →
      draw_random_tile pool turn choice = .error "No tiles left in pool!") := by
  refine ⟨?_, ?_, ?_⟩
  · rintro ⟨x, hx, hax⟩
    have hxav : x ∈ pool.filter fun y => decide (y ∈ get_allowed_tiles turn) :=
      List.mem_filter.mpr ⟨hx, by simpa using hax⟩
    have hfe : (pool.filter fun y => decide (y ∈ get_allowed_tiles turn)).isEmpty
        = false :=
      List.isEmpty_eq_false.mpr (List.ne_nil_of_mem hxav)
    simp only [draw_random_tile, hfe, if_false, Bool.false_eq_true]
    set av := pool.filter fun y => decide (y ∈ get_allowed_tiles turn) with hav
    have hlt : choice % av.length < av.length :=
      Nat.mod_lt _ (List.length_pos.mpr (List.ne_nil_of_mem hxav))
    have htile : av.getD (choice % av.length) 0 ∈ av := by
      rw [List.getD_eq_getElem?_getD, List.getElem?_eq_getElem hlt]
      exact List.getElem_mem hlt
    refine ⟨av.getD (choice % av.length) 0, rfl, ?_, ?_⟩
    · exact (List.mem_filter.mp htile).1
    · simpa using (List.mem_filter.mp htile).2
  · rintro ⟨hne, hnone⟩
    have hfe : (pool.filter fun y => decide (y ∈ get_allowed_tiles turn)) = [] :=
      List.filter_eq_nil_iff.mpr fun a ha => by simpa using hnone a ha
    simp only [draw_random_tile, hfe, List.isEmpty_nil, if_true]
    have hpe : pool.isEmpty = false := List.isEmpty_eq_false.mpr hne
    simp only [hpe, Bool.false_eq_true, if_false]
    have hlt : choice % pool.length < pool.length :=
      Nat.mod_lt _ (List.length_pos.mpr hne)
    have htile : pool.getD (choice % pool.length) 0 ∈ pool := by
      rw [List.getD_eq_getElem?_getD, List.getElem?_eq_getElem hlt]
      exact List.getElem_mem hlt
    exact ⟨_, rfl, htile⟩
  · intro h
    subst h
    rfl

/-- Witness for C4: turn 1 draws the terminal 11 from a mixed pool,
falls back to the middle tile 14 when it is the only tile, and errors on
the empty pool. -/
theorem draw_filter_behavior_w :
    (∃ t, draw_random_tile [14, 11] 1 0 = .ok (t, [14, 11].erase t) ∧
      t ∈ [14, 11] ∧ t ∈ get_allowed_tiles 1) ∧
    (∃ t, draw_random_tile [14] 1 0 = .ok (t, [14].erase t) ∧ t ∈ [14]) ∧
    draw_random_tile ([] : List Nat) 1 0 = .error "No tiles left in pool!" :=
  ⟨(draw_filter_behavior [14, 11] 1 0).1 ⟨11, by decide, by decide⟩,
   (draw_filter_behavior [14] 1 0).2.1 ⟨by decide, by decide⟩,
   (draw_filter_behavior [] 1 0).2.2 rfl⟩

/-- Every two-digit number renders as exactly two characters. -/
theorem toString_two_digit (t : Nat) (h1 : 10 ≤ t) (h2 : t < 100) :
    ∃ c₁ c₂ : Char, (toString t).data = [c₁, c₂] := by
  interval_cases t <;> exact ⟨_, _, rfl⟩

/-- Length-2 consequence of `toString_two_digit`. -/
theorem toString_len2 (t : Nat) (h1 : 10 ≤ t) (h2 : t < 100) :
    (toString t).length = 2 := by
  obtain ⟨c1, c2, hd⟩ := toString_two_digit t h1 h2
  rw [str_len, hd]
  rfl

/-- Length of the CHI encoder's accumulation loop: each tile contributes
its rendered length (2 for two-digit tiles) plus one marker character per
occurrence of the called tile. -/
theorem chi_fold_len (tile : Nat) :
    ∀ (L : List Nat) (r : String),
      (∀ x ∈ L, (toString x).length = 2) →
      (L.foldl
        (fun r tt => if tt = tile then r ++ "c" ++ toString tt
          else r ++ toString tt) r).length
        = r.length + 2 * L.length + L.count tile := by
  intro L
  induction L with
  | nil =>
    intro r h
    simp
  | cons a L ih =>
    intro r h
    have hmemL : ∀ x ∈ L, (toString x).length = 2 :=
      fun x hx => h x (List.mem_cons_of_mem _ hx)
    have ha2 : (toString a).length = 2 := h a (List.mem_cons_self ..)
    simp only [List.foldl_cons]
    by_cases hat : a = tile
    · rw [if_pos hat]
      rw [ih (r ++ "c" ++ toString a) hmemL]
      have hc : (a :: L).count tile = L.count tile + 1 := by
        simp [List.count_cons, hat]
      rw [hc]
      simp only [String.length_append, ha2, List.length_cons,
        show ("c" : String).length = 1 from rfl]
      omega
    · rw [if_neg hat]
      rw [ih (r ++ toString a) hmemL]
      have hc : (a :: L).count tile = L.count tile := by
        simp [List.count_cons]
        intro he
        exact hat he
      rw [hc]
      simp only [String.length_append, ha2, List.length_cons]
      omega

/-- Counterexample to C2 as stated: the PON code for tile 38 has length 7,
not 6, and the KAN code has length 9, not 8 (the marker character is
counted in addition to the three or four two-digit tile values). -/
theorem call_str_lengths_cex :
    (generate_call_str "PON" 38 "KAMI" []).length ≠ 6 ∧
    (generate_call_str "KAN" 38 "KAMI" []).length ≠ 8 := by
  constructor <;> decide

/-- C2 (amended): for each action kind and each valid source seat the
encoded call string has length exactly 7 for CHI (two distinct two-digit
hand tiles plus a two-digit called tile) and PON, and exactly 9 for KAN
and ANKAN. -/
theorem call_str_lengths (tile a b : Nat) (source : String)
    (h1 : 10 ≤ tile) (h2 : tile < 100) (h3 : 10 ≤ a) (h4 : a < 100)
    (h5 : 10 ≤ b) (h6 : b < 100) (hne1 : a ≠ tile) (hne2 : b ≠ tile)
    (hs : source ∈ ["KAMI", "TOIMEN", "SHIMO"]) :
    (generate_call_str "CHI" tile source [a, b]).length = 7 ∧
    (generate_call_str "PON" tile source []).length = 7 ∧
    (generate_call_str "KAN" tile source []).length = 9 ∧
    (generate_call_str "ANKAN" tile source []).length = 9 := by
  have ht2 : (toString tile).length = 2 := toString_len2 tile h1 h2
  have hchi : (generate_call_str "CHI" tile source [a, b]).length = 7 := by
    simp only [generate_call_str, eq_self_iff_true, if_true]
    have hperm : List.Perm (([a, b] ++ [tile]).mergeSort fun u v => decide (u ≤ v))
        ([a, b] ++ [tile]) := List.mergeSort_perm ..
    have hmem : ∀ x, x ∈ (([a, b] ++ [tile]).mergeSort fun u v => decide (u ≤ v)) →
        (toString x).length = 2 := by
      intro x hx
      have : x ∈ [a, b] ++ [tile] := hperm.mem_iff.mp hx
      simp at this
      rcases this with h | h | h
      · rw [h]
        exact toString_len2 a h3 h4
      · rw [h]
        exact toString_len2 b h5 h6
      · rw [h]
        exact ht2
    rw [chi_fold_len tile _ "" hmem]
    have hlen : (([a, b] ++ [tile]).mergeSort
        fun x y => decide (x ≤ y)).length = 3 := by
      simp
    have hcount : (([a, b] ++ [tile]).mergeSort
        fun x y => decide (x ≤ y)).count tile = 1 := by
      rw [hperm.count_eq]
      simp [List.count_cons, hne1, hne2]
    rw [hlen, hcount]
    rfl
  fin_cases hs <;> refine ⟨hchi, ?_, ?_, ?_⟩ <;>
    simp [generate_call_str, String.length_append, ht2,
      show ("p" : String).length = 1 from rfl,
      show ("m" : String).length = 1 from rfl,
      show ("a" : String).length = 1 from rfl]

/-- Witness for C2 (amended): concrete lengths at tile 32 with hand tiles
31 and 33, source KAMI. -/
theorem call_str_lengths_w :
    (generate_call_str "CHI" 32 "KAMI" [31, 33]).length = 7 :=
  (call_str_lengths 32 31 33 "KAMI" (by decide) (by decide) (by decide)
    (by decide) (by decide) (by decide) (by decide) (by decide)
    (by decide)).1

/-- C5: marker placement in the call codes.  PON puts `p` before the
first/second/third tile value for source KAMI/TOIMEN/SHIMO; KAN puts `m`
before the first/second/fourth of the four tile values (skipping the
third); ANKAN always puts `a` before the fourth value. -/
theorem call_marker_positions (tile : Nat) (h1 : 10 ≤ tile) (h2 : tile < 100) :
    ((generate_call_str "PON" tile "KAMI" []).data)[0]? = some 'p' ∧
    ((generate_call_str "PON" tile "TOIMEN" []).data)[2]? = some 'p' ∧
    ((generate_call_str "PON" tile "SHIMO" []).data)[4]? = some 'p' ∧
    ((generate_call_str "KAN" tile "KAMI" []).data)[0]? = some 'm' ∧
    ((generate_call_str "KAN" tile "TOIMEN" []).data)[2]? = some 'm' ∧
    ((generate_call_str "KAN" tile "SHIMO" []).data)[6]? = some 'm' ∧
    ((generate_call_str "ANKAN" tile "" []).data)[6]? = some 'a' := by
  obtain ⟨c1, c2, hd⟩ := toString_two_digit tile h1 h2
  refine ⟨?_, ?_, ?_, ?_, ?_, ?_, ?_⟩ <;>
    simp [generate_call_str, String.data_append, hd,
      show ("p" : String).data = ['p'] from rfl,
      show ("m" : String).data = ['m'] from rfl,
      show ("a" : String).data = ['a'] from rfl]

/-- Witness for C5: with tile 38 the PON-from-KAMI marker is the first
character. -/
theorem call_marker_positions_w :
    ((generate_call_str "PON" 38 "KAMI" []).data)[0]? = some 'p' :=
  (call_marker_positions 38 (by decide) (by decide)).1

/-- One seat step, on success: the seat's own draw list grows by one and
its turn counter by one, all others unchanged; the pool shrinks by one
except on the hero's fixed final-turn draw, where it is untouched. -/
theorem stepSeat_ok {cfg : GenCfg} {f : Nat → Nat} {st st' : GenState}
    {j : Nat} (h : stepSeat cfg f st j = .ok st') :
    (∀ q, (st'.draws.get q).length = (st.draws.get q).length
      + (if q = abs_to_pos cfg.heroIdx j then 1 else 0)) ∧
    (∀ q, st'.turns.get q = st.turns.get q
      + (if q = abs_to_pos cfg.heroIdx j then 1 else 0)) ∧
    (st'.pool.length
      + (if abs_to_pos cfg.heroIdx j = Pos.hero ∧
            st.turns.get Pos.hero + 1 = cfg.n then 0 else 1)
      = st.pool.length) := by
  simp only [stepSeat] at h
  by_cases hc : abs_to_pos cfg.heroIdx j = Pos.hero ∧
      (st.turns.bump (abs_to_pos cfg.heroIdx j)).get (abs_to_pos cfg.heroIdx j)
        = cfg.n
  · rw [if_pos hc] at h
    cases h
    refine ⟨fun q => ?_, fun q => ?_, ?_⟩
    · show ((st.draws.app _ _).get q).length = _
      rw [draws_app_get]
      by_cases hq : q = abs_to_pos cfg.heroIdx j <;> simp [hq]
    · show (st.turns.bump _).get q = _
      rw [turns_bump_get]
      by_cases hq : q = abs_to_pos cfg.heroIdx j <;> simp [hq]
    · have hcond : abs_to_pos cfg.heroIdx j = Pos.hero ∧
          st.turns.get Pos.hero + 1 = cfg.n := by
        refine ⟨hc.1, ?_⟩
        have h2 := hc.2
        rw [turns_bump_get] at h2
        rw [if_pos rfl, hc.1] at h2
        exact h2
      rw [if_pos hcond]
      rfl
  · rw [if_neg hc] at h
    split at h
    · exact Except.noConfusion h
    · rename_i tile pool' hdr
      cases h
      obtain ⟨hmem, hp, hlen⟩ := draw_ok hdr
      refine ⟨fun q => ?_, fun q => ?_, ?_⟩
      · show ((st.draws.app _ _).get q).length = _
        rw [draws_app_get]
        by_cases hq : q = abs_to_pos cfg.heroIdx j <;> simp [hq]
      · show (st.turns.bump _).get q = _
        rw [turns_bump_get]
        by_cases hq : q = abs_to_pos cfg.heroIdx j <;> simp [hq]
      · have hcond : ¬(abs_to_pos cfg.heroIdx j = Pos.hero ∧
            st.turns.get Pos.hero + 1 = cfg.n) := by
          rintro ⟨h1, h2⟩
          apply hc
          refine ⟨h1, ?_⟩
          rw [turns_bump_get, if_pos rfl, h1]
          exact h2
        rw [if_neg hcond]
        exact hlen

/-- One full round, on success: with the hero seat among the four seats,
every relative position's draw list and turn counter grow by exactly one,
and the pool shrinks by four draws except in the round where the hero's
turn counter reaches the final-turn number, where it shrinks by three. -/
theorem stepRound_ok {cfg : GenCfg} {f : Nat → Nat} {st st' : GenState}
    (hhi : cfg.heroIdx < 4) (h : stepRound cfg f st = .ok st') :
    (∀ q, (st'.draws.get q).length = (st.draws.get q).length + 1) ∧
    (∀ q, st'.turns.get q = st.turns.get q + 1) ∧
    (st'.pool.length + 4 = st.pool.length
      + (if st.turns.get Pos.hero + 1 = cfg.n then 1 else 0)) := by
  simp only [stepRound] at h
  split at h
  · exact Except.noConfusion h
  · rename_i st1 e0
    split at h
    · exact Except.noConfusion h
    · rename_i st2 e1
      split at h
      · exact Except.noConfusion h
      · rename_i st3 e2
        obtain ⟨d0, t0, p0⟩ := stepSeat_ok e0
        obtain ⟨d1, t1, p1⟩ := stepSeat_ok e1
        obtain ⟨d2, t2, p2⟩ := stepSeat_ok e2
        obtain ⟨d3, t3, p3⟩ := stepSeat_ok h
        have hi4 : cfg.heroIdx = 0 ∨ cfg.heroIdx = 1 ∨ cfg.heroIdx = 2 ∨
            cfg.heroIdx = 3 := by omega
        rcases hi4 with hi | hi | hi | hi
        all_goals rw [hi] at d0 d1 d2 d3 t0 t1 t2 t3 p0 p1 p2 p3
        all_goals refine ⟨fun q => ?_, fun q => ?_, ?_⟩
        all_goals try
          (have a0 := d0 q
           have a1 := d1 q
           have a2 := d2 q
           have a3 := d3 q
           cases q <;> simp [abs_to_pos] at a0 a1 a2 a3 <;> omega)
        all_goals try
          (have a0 := t0 q
           have a1 := t1 q
           have a2 := t2 q
           have a3 := t3 q
           cases q <;> simp [abs_to_pos] at a0 a1 a2 a3 <;> omega)
        -- remaining goals: the pool accounting in each of the four cases
        · have b0 := t0 Pos.hero
          simp [abs_to_pos] at b0 p0 p1 p2 p3
          by_cases hn : st.turns.get Pos.hero + 1 = cfg.n
          · rw [if_pos hn] at p0 ⊢
            omega
          · rw [if_neg hn] at p0 ⊢
            omega
        · have b0 := t0 Pos.hero
          simp [abs_to_pos] at b0 p0 p1 p2 p3
          rw [b0] at p1
          by_cases hn : st.turns.get Pos.hero + 1 = cfg.n
          · rw [if_pos hn] at p1 ⊢
            omega
          · rw [if_neg hn] at p1 ⊢
            omega
        · have b0 := t0 Pos.hero
          have b1 := t1 Pos.hero
          simp [abs_to_pos] at b0 b1 p0 p1 p2 p3
          rw [b0] at b1
          rw [b1] at p2
          by_cases hn : st.turns.get Pos.hero + 1 = cfg.n
          · rw [if_pos hn] at p2 ⊢
            omega
          · rw [if_neg hn] at p2 ⊢
            omega
        · have b0 := t0 Pos.hero
          have b1 := t1 Pos.hero
          have b2 := t2 Pos.hero
          simp [abs_to_pos] at b0 b1 b2 p0 p1 p2 p3
          rw [b0] at b1
          rw [b1] at b2
          rw [b2] at p3
          by_cases hn : st.turns.get Pos.hero + 1 = cfg.n
          · rw [if_pos hn] at p3 ⊢
            omega
          · rw [if_neg hn] at p3 ⊢
            omega

/-- Iterating `r` rounds from a state whose counters all equal `c`:
counters end at `c + r`, every draw list grows by exactly `r`, and the
pool shrinks by `4r` minus one skipped draw when the hero's final turn
falls inside these rounds. -/
theorem runRounds_ok {cfg : GenCfg} {f : Nat → Nat} (hhi : cfg.heroIdx < 4) :
    ∀ (r : Nat) (st st' : GenState) (c : Nat),
      (∀ q, st.turns.get q = c) →
      runRounds cfg f r st = .ok st' →
      (∀ q, st'.turns.get q = c + r) ∧
      (∀ q, (st'.draws.get q).length = (st.draws.get q).length + r) ∧
      (st'.pool.length + 4 * r
        = st.pool.length + (if c < cfg.n ∧ cfg.n ≤ c + r then 1 else 0)) := by
  intro r
  induction r with
  | zero =>
    intro st st' c hc h
    simp only [runRounds] at h
    cases h
    refine ⟨fun q => by rw [hc q]; omega, fun q => rfl, ?_⟩
    rw [if_neg (by omega)]
  | succ r ih =>
    intro st st' c hc h
    simp only [runRounds] at h
    split at h
    · exact Except.noConfusion h
    · rename_i st1 e0
      obtain ⟨Rd, Rt, Rp⟩ := stepRound_ok hhi e0
      have hc1 : ∀ q, st1.turns.get q = c + 1 := fun q => by
        rw [Rt q, hc q]
      obtain ⟨It, Id, Ip⟩ := ih st1 st' (c + 1) hc1 h
      refine ⟨fun q => by rw [It q]; omega, fun q => ?_, ?_⟩
      · rw [Id q, Rd q]
        omega
      · rw [hc Pos.hero] at Rp
        split_ifs at Rp Ip ⊢ <;> omega

/-- Counterexample to C1 as stated: with the hero at EAST and final turn
N = 1, KAMI's absolute seat (NORTH) follows the hero's in turn order, yet
KAMI receives 1 draw from the generator, not N - 1 = 0. -/
theorem generator_draw_counts_cex :
    generate_random_draws cfgDemo idxZero
      = .ok ⟨[19], [11, 45], [11], [11]⟩ ∧
    cfgDemo.heroSeat = "EAST" ∧ cfgDemo.n = 1 ∧ (1 : Nat) ≠ cfgDemo.n - 1 := by
  refine ⟨by rfl, rfl, rfl, by decide⟩

/-- C1 (amended): whenever the generator succeeds, every relative position
receives exactly N draws regardless of whether its absolute seat precedes
or follows the hero's, and exactly one additional forced winning draw
(tile 45) is appended to the winner SHIMO's record only, which therefore
has N + 1 entries ending in the forced tile. -/
theorem generator_draw_counts (cfg : GenCfg) (f : Nat → Nat) (d : Draws)
    (hhi : cfg.heroIdx < 4) (h : generate_random_draws cfg f = .ok d) :
    d.hero.length = cfg.n ∧ d.toimen.length = cfg.n ∧ d.kami.length = cfg.n ∧
    d.shimo.length = cfg.n + 1 ∧ d.shimo.getLast? = some 45 := by
  simp only [generate_random_draws] at h
  split at h
  · exact Except.noConfusion h
  · rename_i st e0
    cases h
    obtain ⟨It, Id, Ip⟩ :=
      runRounds_ok hhi cfg.n (initState cfg) st 0 (fun q => by cases q <;> rfl) e0
    have dh := Id Pos.hero
    have ds := Id Pos.shimo
    have dt := Id Pos.toimen
    have dk := Id Pos.kami
    simp only [initState, Draws.get] at dh ds dt dk
    refine ⟨by simpa using dh, by simpa using dt, by simpa using dk, ?_, ?_⟩
    · show (st.draws.shimo ++ [45]).length = cfg.n + 1
      simp only [List.length_append, List.length_singleton]
      have : st.draws.shimo.length = cfg.n := by simpa using ds
      omega
    · exact List.getLast?_concat _

/-- Witness for C1 (amended): a NORTH-hero run with N = 2 gives 2 draws to
every position and 3 to SHIMO. -/
theorem generator_draw_counts_w :
    (Draws.mk [11, 19] [11, 19, 45] [11, 19] [11, 19]).hero.length = cfgNorth2.n ∧
    (Draws.mk [11, 19] [11, 19, 45] [11, 19] [11, 19]).toimen.length = cfgNorth2.n ∧
    (Draws.mk [11, 19] [11, 19, 45] [11, 19] [11, 19]).kami.length = cfgNorth2.n ∧
    (Draws.mk [11, 19] [11, 19, 45] [11, 19] [11, 19]).shimo.length = cfgNorth2.n + 1 ∧
    (Draws.mk [11, 19] [11, 19, 45] [11, 19] [11, 19]).shimo.getLast? = some 45 :=
  generator_draw_counts cfgNorth2 idxZero ⟨[11, 19], [11, 19, 45], [11, 19], [11, 19]⟩
    (by decide) (by rfl)

/-- Counting occurrences through the conditional removal loop: when a tile
occurs in the removal list no more often than in the pool, every listed
occurrence removes exactly one pool copy. -/
theorem removeFixed_count : ∀ (ts p : List Nat) (t : Nat),
    ts.count t ≤ p.count t →
    (removeFixed p ts).count t + ts.count t = p.count t := by
  intro ts
  induction ts with
  | nil =>
    intro p t h
    simp [removeFixed]
  | cons a ts ih =>
    intro p t h
    have hstep : removeFixed p (a :: ts)
        = removeFixed (if a ∈ p then p.erase a else p) ts := rfl
    by_cases hat : a = t
    · subst hat
      have hpos : 0 < p.count a := by
        have hc : (a :: ts).count a = ts.count a + 1 := by
          simp [List.count_cons]
        omega
      have hmem : a ∈ p := List.count_pos_iff.mp hpos
      rw [hstep, if_pos hmem]
      have herase : (p.erase a).count a = p.count a - 1 :=
        List.count_erase_self ..
      have hle : ts.count a ≤ (p.erase a).count a := by
        have hc : (a :: ts).count a = ts.count a + 1 := by
          simp [List.count_cons]
        omega
      have hih := ih (p.erase a) a hle
      have hc : (a :: ts).count a = ts.count a + 1 := by
        simp [List.count_cons]
      omega
    · have hta : t ≠ a := fun he => hat he.symm
      have hc : (a :: ts).count t = ts.count t := by
        simp [List.count_cons]
        intro he
        exact hat he
      rw [hstep]
      by_cases hmem : a ∈ p
      · rw [if_pos hmem]
        have herase : (p.erase a).count t = p.count t :=
          List.count_erase_of_ne hta ..
        have hih := ih (p.erase a) t (by omega)
        omega
      · rw [if_neg hmem]
        have hih := ih p t (by omega)
        omega

/-- C6: tile-pool accounting.  (1) Every successful draw takes a member of
the pool and shrinks it by exactly one; (2) the prepared pool deducts one
copy per occurrence of each fixed tile (hero hand, hero last draw, dora
indicators), so those committed copies are never drawable; (3) the `n`
successful rounds of the generator perform exactly `4n - 1` pool draws
(the hero's fixed final draw is not pool-drawn). -/
theorem pool_accounting :
    (∀ (pool : List Nat) (turn choice t : Nat) (p' : List Nat),
      draw_random_tile pool turn choice = .ok (t, p') →
      t ∈ pool ∧ p'.length + 1 = pool.length) ∧
    (∀ (cfg : GenCfg) (t : Nat),
      (fixedTiles cfg).count t ≤ ((applyAka cfg.aka basePool).count t) →
      (initPool cfg).count t + (fixedTiles cfg).count t
        = (applyAka cfg.aka basePool).count t) ∧
    (∀ (cfg : GenCfg) (f : Nat → Nat) (st : GenState),
      cfg.heroIdx < 4 → 1 ≤ cfg.n →
      runRounds cfg f cfg.n (initState cfg) = .ok st →
      st.pool.length + (4 * cfg.n) = (initPool cfg).length + 1) := by
  refine ⟨?_, ?_, ?_⟩
  · intro pool turn choice t p' h
    obtain ⟨hm, _, hl⟩ := draw_ok h
    exact ⟨hm, hl⟩
  · intro cfg t h
    exact removeFixed_count (fixedTiles cfg) (applyAka cfg.aka basePool) t h
  · intro cfg f st hhi hn h
    obtain ⟨It, Id, Ip⟩ :=
      runRounds_ok hhi cfg.n (initState cfg) st 0 (fun q => by cases q <;> rfl) h
    rw [if_pos (by omega)] at Ip
    simpa [initState] using Ip

/-- Witness for C6: a concrete successful draw, the repository
configuration's count accounting for the duplicated hand tile 28, and the
pool length after the single round of the demo configuration. -/
theorem pool_accounting_w :
    (11 ∈ [11] ∧ ([] : List Nat).length + 1 = [11].length) ∧
    ((initPool cfgRepo).count 28 + (fixedTiles cfgRepo).count 28
      = (applyAka cfgRepo.aka basePool).count 28) ∧
    (stDemo.pool.length + (4 * cfgDemo.n) = (initPool cfgDemo).length + 1) :=
  ⟨pool_accounting.1 [11] 1 0 11 [] (by rfl),
   pool_accounting.2.1 cfgRepo 28 (by decide),
   pool_accounting.2.2 cfgDemo idxZero stDemo (by decide) (by decide) (by rfl)⟩

end RiichiForge
